import Mathlib

/-!
# Verification of the UPI VPA generator pipeline

A shallow embedding of `app.py`: the phone-number validator, the VPA
combinator (`generate_vpas`), the post-processing done by the
"Generate VPAs" button handler (prefix/suffix decoration, dedupe, sort,
history logging), and the JSON export, together with theorems checking
the natural-language specification against this embedding.

Strings are modelled as Lean `String` (a list of Unicode scalar values),
matching Python `str` for all inputs representable in both.
-/

/-! ## Python string primitives -/

/-- Models Python's whitespace test used by `str.strip` (`str.isspace`):
ASCII space, `\t`, `\n`, `\v`, `\f`, `\r`, the C1 separators `\x1c`-`\x1f`,
`\x85`, and the Unicode space separators (NBSP, Ogham space, the
`U+2000`-`U+200A` block, line/paragraph separators, narrow NBSP,
mathematical space, ideographic space). -/
def pyIsSpaceChar (c : Char) : Bool :=
  let n := c.toNat
  n = 32 || (9 ≤ n && n ≤ 13) || (28 ≤ n && n ≤ 31) || n = 133 || n = 160 ||
  n = 5760 || (8192 ≤ n && n ≤ 8202) || n = 8232 || n = 8233 || n = 8239 ||
  n = 8287 || n = 12288

/-- Models Python `str.strip()` with no argument: remove leading and
trailing whitespace characters. -/
def pyStrip (s : String) : String :=
  ⟨((s.data.dropWhile pyIsSpaceChar).reverse.dropWhile pyIsSpaceChar).reverse⟩

/-- Models Python `str.isdigit` on a single character: true for characters
with Unicode numeric type Digit or Decimal.  Besides ASCII `0`-`9` this
includes the superscript/subscript digits and the decimal-digit blocks of
the major scripts (Arabic-Indic, extended Arabic-Indic, NKo, Devanagari,
Bengali, Gurmukhi, Gujarati, Oriya, Tamil, Telugu, Kannada, Malayalam,
Sinhala lith, Thai, Lao, Tibetan, Myanmar, Khmer, Mongolian, Limbu,
New Tai Lue, fullwidth digits). -/
def pyIsDigitChar (c : Char) : Bool :=
  let n := c.toNat
  (48 ≤ n && n ≤ 57) || n = 178 || n = 179 || n = 185 ||
  (1632 ≤ n && n ≤ 1641) || (1776 ≤ n && n ≤ 1785) || (1984 ≤ n && n ≤ 1993) ||
  (2406 ≤ n && n ≤ 2415) || (2534 ≤ n && n ≤ 2543) || (2662 ≤ n && n ≤ 2671) ||
  (2790 ≤ n && n ≤ 2799) || (2918 ≤ n && n ≤ 2927) || (3046 ≤ n && n ≤ 3055) ||
  (3174 ≤ n && n ≤ 3183) || (3302 ≤ n && n ≤ 3311) || (3430 ≤ n && n ≤ 3439) ||
  (3558 ≤ n && n ≤ 3567) || (3664 ≤ n && n ≤ 3673) || (3792 ≤ n && n ≤ 3801) ||
  (3872 ≤ n && n ≤ 3881) || (4160 ≤ n && n ≤ 4169) || (6112 ≤ n && n ≤ 6121) ||
  (6160 ≤ n && n ≤ 6169) || n = 8304 || (8308 ≤ n && n ≤ 8313) ||
  (8320 ≤ n && n ≤ 8329) || (65296 ≤ n && n ≤ 65305)

/-- Models Python `str.isdigit()`: true iff the string is non-empty and
every character is a digit in the `str.isdigit` sense. -/
def pyIsdigitStr (s : String) : Bool :=
  !s.data.isEmpty && s.data.all pyIsDigitChar

/-- Models Python `str.replace(old, new)` for a non-empty `old`:
left-to-right scan, each non-overlapping occurrence of `pat` is replaced
by `rep` and scanning resumes after the replaced occurrence.  The second
`Nat` argument is the skip state: `k+1` means "copy nothing and skip this
character, `k` more to skip" (used to step over a matched occurrence). -/
def replaceAllAux (pat rep : List Char) : List Char → Nat → List Char
  | [], _ => []
  | _ :: rest, k + 1 => replaceAllAux pat rep rest k
  | c :: rest, 0 =>
    if pat ≠ [] ∧ pat.isPrefixOf (c :: rest) then
      rep ++ replaceAllAux pat rep rest (pat.length - 1)
    else
      c :: replaceAllAux pat rep rest 0

/-- Models Python `str.replace(old, new)` on character lists, for a
non-empty `old` (the only way the source calls it). -/
def replaceAll (pat rep l : List Char) : List Char := replaceAllAux pat rep l 0

/-- Models Python `s.replace(pat, rep)` at `String` level. -/
def pyReplace (s pat rep : String) : String :=
  ⟨replaceAll pat.data rep.data s.data⟩

/-- `occurs pat l`: whether `pat` occurs as a contiguous substring of `l`. -/
def occurs (pat : List Char) : List Char → Bool
  | [] => pat.isEmpty
  | c :: rest => pat.isPrefixOf (c :: rest) || occurs pat rest

/-- `occursStr pat s`: whether `pat` occurs as a substring of `s`
(models Python `pat in s`). -/
def occursStr (pat s : String) : Bool := occurs pat.data s.data

/-- Models Python lexicographic (code-point) comparison of character
lists, the order used by `list.sort` / `sorted` on strings. -/
def ltCharsB : List Char → List Char → Bool
  | [], [] => false
  | [], _ :: _ => true
  | _ :: _, [] => false
  | a :: as, b :: bs => if a < b then true else if b < a then false else ltCharsB as bs

/-- Models Python `<` on strings. -/
def pyStrLt (a b : String) : Bool := ltCharsB a.data b.data

/-- Models Python `str.split(sep)` for a single-character separator:
splits at every occurrence of `sep`, keeping empty fields. -/
def splitChar (sep : Char) : List Char → List (List Char)
  | [] => [[]]
  | c :: rest =>
    if c = sep then [] :: splitChar sep rest
    else
      match splitChar sep rest with
      | [] => [[c]]
      | f :: r => (c :: f) :: r

/-! ## The validator and combinator (`app.py` lines 64-80) -/

/-- `validate_phone_number` from `app.py` (lines 64-67):
`number = str(number).strip(); return len(number) == 10 and number.isdigit()`.
All callers pass strings, so `str(...)` is the identity. -/
def validate_phone_number (number : String) : Bool :=
  let n := pyStrip number
  n.length == 10 && pyIsdigitStr n

/-- The body of the inner loop of `generate_vpas` (lines 75-78): build one
VPA from a number and a handle.  Python's `if custom_format:` is falsy for
`None` and for the empty string, in which case the f-string default
`f"{number}@{handle}"` is used; otherwise
`custom_format.replace('{number}', number).replace('{handle}', handle)`. -/
def mk_vpa (custom_format : Option String) (number handle : String) : String :=
  match custom_format with
  | some f =>
    if f = "" then number ++ "@" ++ handle
    else pyReplace (pyReplace f "{number}" number) "{handle}" handle
  | none => number ++ "@" ++ handle

/-- `generate_vpas` from `app.py` (lines 69-80): for each phone number, if
it passes `validate_phone_number`, emit one VPA per selected handle (in
handle order); numbers are processed in input order and results appended. -/
def generate_vpas (phone_numbers selected_handles : List String)
    (custom_format : Option String) : List String :=
  match phone_numbers with
  | [] => []
  | number :: rest =>
    (if validate_phone_number number then
        selected_handles.map (mk_vpa custom_format number)
      else []) ++ generate_vpas rest selected_handles custom_format

/-! ## Post-processing (the "Generate VPAs" button handler, lines 303-336) -/

/-- Models `list(set(vpas))` (line 322): the list of distinct identifier
strings.  Python materialises the set in an unspecified order; we model it
with `List.dedup`, which has the same elements and the same length. -/
def pyDedupe (l : List String) : List String := l.dedup

/-- The sort key of the "By Handle" option (line 328):
`x.split('@')[1] if '@' in x else x` — the second field of the
`'@'`-split, i.e. the text between the first and second `'@'`. -/
def byHandleKey (x : String) : String :=
  if x.data.contains '@' then ⟨(splitChar '@' x.data).getD 1 []⟩ else x

/-- The sort key of the "By Phone Number" option (line 326):
`x.split('@')[0]` — the text before the first `'@'` (the whole string if
there is no `'@'`). -/
def byNumberKey (x : String) : String := ⟨(splitChar '@' x.data).getD 0 []⟩

/-- Insert `a` into `l`, placing it before the first element whose key is
not smaller than `a`'s key (helper for the stable sort model). -/
def insertKey (key : String → String) (a : String) : List String → List String
  | [] => [a]
  | b :: l => if pyStrLt (key b) (key a) then b :: insertKey key a l else a :: b :: l

/-- Models Python `list.sort(key=...)` : a stable ascending sort by the
given key under Python's lexicographic string order.  (Python's Timsort is
stable; any stable ascending sort computes the same list, and we use
insertion sort.) -/
def sortByKey (key : String → String) : List String → List String
  | [] => []
  | a :: l => insertKey key a (sortByKey key l)

/-- The "By Handle" sort of the handler (line 328). -/
def sortByHandle (l : List String) : List String := sortByKey byHandleKey l

/-- One of the four values of the "Sort Output" select box (lines 293-296). -/
inductive SortOption where
  | noSort
  | byPhoneNumber
  | byHandle
  | alphabetically
deriving DecidableEq

/-- The sort block of the handler (lines 325-330). -/
def sortApply : SortOption → List String → List String
  | SortOption.noSort, l => l
  | SortOption.byPhoneNumber, l => sortByKey byNumberKey l
  | SortOption.byHandle, l => sortByKey byHandleKey l
  | SortOption.alphabetically, l => sortByKey (fun x => x) l

/-- One entry of `st.session_state['history']` as appended by
`save_to_history` (lines 82-89). -/
structure HistoryEntry where
  timestamp : String
  phone_count : Nat
  handle_count : Nat
  vpas_count : Nat
deriving DecidableEq

/-- `save_to_history` (lines 82-89): append one record to the history. -/
def save_to_history (history : List HistoryEntry) (now : String)
    (phone_count handle_count vpas_count : Nat) : List HistoryEntry :=
  history ++ [⟨now, phone_count, handle_count, vpas_count⟩]

/-- The session state touched by one generation cycle:
`st.session_state['vpas']` and `st.session_state['history']`. -/
structure AppState where
  vpas : List String
  history : List HistoryEntry
deriving DecidableEq

/-- The "Generate VPAs" button handler (`app.py` lines 303-336) as a state
transition.  Returns the new state and `some errorMessage` when the cycle
aborts (empty number list or empty handle list), in which case the state
is unchanged.  `pfx`/`sfx` model the `add_prefix`/`add_suffix` text inputs
(Python truthiness: the empty string means "not supplied"). -/
def generateClick (st : AppState) (phone_numbers selected_handles : List String)
    (custom_format : Option String) (pfx sfx : String) (remove_duplicates : Bool)
    (sort_option : SortOption) (now : String) : AppState × Option String :=
  if phone_numbers = [] then
    (st, some "Please enter at least one phone number")
  else if selected_handles = [] then
    (st, some "Please select at least one UPI handle")
  else
    let valid0 := phone_numbers.filter (fun n => validate_phone_number n)
    let valid1 := if pfx ≠ "" then valid0.map (fun n => pfx ++ n) else valid0
    let valid2 := if sfx ≠ "" then valid1.map (fun n => n ++ sfx) else valid1
    let vpas0 := generate_vpas valid2 selected_handles custom_format
    let vpas1 := if remove_duplicates then pyDedupe vpas0 else vpas0
    let vpas2 := sortApply sort_option vpas1
    ({ vpas := vpas2,
       history := save_to_history st.history now valid2.length
         selected_handles.length vpas2.length },
     none)

/-! ## Spec-side definitions used to compare against the code -/

/-- The validity predicate as the spec words it for claim C1: trimmed
input has length exactly 10 and every character is an ASCII decimal digit
`0`-`9`. -/
def specAsciiValid (t : String) : Bool :=
  let n := pyStrip t
  n.length == 10 && n.data.all (fun c => c.isDigit)

/-- The sort key as the spec words it for claim C6: the entire substring
after the first `'@'`, or the whole string when there is no `'@'`. -/
def afterFirstAt (x : String) : String :=
  if x.data.contains '@' then ⟨(x.data.dropWhile (fun c => !(c == '@'))).tail⟩
  else x

/-- The template substitution as the spec words it for claim C4: a single
left-to-right scan replacing every occurrence of the literal `{number}` by
`n` and every occurrence of the literal `{handle}` by `h` (the two
placeholder tokens cannot overlap, so this is the simultaneous
substitution the spec describes). -/
def specSubst (n h : List Char) : List Char → List Char
  | [] => []
  | c :: rest =>
    if "{number}".data.isPrefixOf (c :: rest) then n ++ specSubst n h (rest.drop 7)
    else if "{handle}".data.isPrefixOf (c :: rest) then h ++ specSubst n h (rest.drop 7)
    else c :: specSubst n h rest
termination_by l => l.length
decreasing_by
  · simp only [List.length_cons, List.length_drop]; omega
  · simp only [List.length_cons, List.length_drop]; omega
  · simp only [List.length_cons]; omega

/-- `specSubst` at `String` level. -/
def specSubstStr (t n h : String) : String := ⟨specSubst n.data h.data t.data⟩

/-! ## JSON export (lines 451-455) and a JSON reader for the round trip -/

/-- JSON insignificant whitespace. -/
def isWsC (c : Char) : Bool := c = ' ' || c = '\n' || c = '\t' || c = '\r'

/-- Skip insignificant whitespace. -/
def skipWs : List Char → List Char
  | [] => []
  | c :: l => if isWsC c then skipWs l else c :: l

/-- ASCII decimal digit test. -/
def isDigitC (c : Char) : Bool := 48 ≤ c.toNat && c.toNat ≤ 57

/-- The decimal digit character for `k < 10`. -/
def digitChar (k : Nat) : Char :=
  if k = 0 then '0' else if k = 1 then '1' else if k = 2 then '2'
  else if k = 3 then '3' else if k = 4 then '4' else if k = 5 then '5'
  else if k = 6 then '6' else if k = 7 then '7' else if k = 8 then '8' else '9'

/-- Decimal rendering of a natural number, most significant digit first,
in front of `acc`. -/
def natRenderAux : Nat → List Char → List Char
  | n, acc =>
    if n < 10 then digitChar n :: acc
    else natRenderAux (n / 10) (digitChar (n % 10) :: acc)
termination_by n => n
decreasing_by exact Nat.div_lt_self (by omega) (by omega)

/-- Decimal rendering of a natural number (models how `json.dumps` prints
the `total_vpas` integer). -/
def natRender (n : Nat) : List Char := natRenderAux n []

/-- Numeric value of a list of decimal digit characters. -/
def digitsVal (l : List Char) : Nat := l.foldl (fun a c => 10 * a + (c.toNat - 48)) 0

/-- Read a decimal integer (one or more digits) from the front of `l`. -/
def parseNatL (l : List Char) : Option (Nat × List Char) :=
  if l.takeWhile isDigitC = [] then none
  else some (digitsVal (l.takeWhile isDigitC), l.dropWhile isDigitC)

/-- The lowercase hex digit character for `k < 16`. -/
def hexDigitChar (k : Nat) : Char :=
  if k = 0 then '0' else if k = 1 then '1' else if k = 2 then '2'
  else if k = 3 then '3' else if k = 4 then '4' else if k = 5 then '5'
  else if k = 6 then '6' else if k = 7 then '7' else if k = 8 then '8'
  else if k = 9 then '9' else if k = 10 then 'a' else if k = 11 then 'b'
  else if k = 12 then 'c' else if k = 13 then 'd' else if k = 14 then 'e' else 'f'

/-- Four lowercase hex digits of `n % 65536`, as in a JSON `\uXXXX` escape. -/
def toHex4 (n : Nat) : List Char :=
  hexDigitChar (n / 4096 % 16) :: hexDigitChar (n / 256 % 16) ::
    hexDigitChar (n / 16 % 16) :: hexDigitChar (n % 16) :: []

/-- Value of one hex digit character (both cases accepted). -/
def hexVal (c : Char) : Option Nat :=
  let n := c.toNat
  if 48 ≤ n ∧ n ≤ 57 then some (n - 48)
  else if 97 ≤ n ∧ n ≤ 102 then some (n - 87)
  else if 65 ≤ n ∧ n ≤ 70 then some (n - 55)
  else none

/-- Value of a four-hex-digit group. -/
def hex4 (a b c d : Char) : Option Nat :=
  match hexVal a, hexVal b, hexVal c, hexVal d with
  | some w, some x, some y, some z => some (((w * 16 + x) * 16 + y) * 16 + z)
  | _, _, _, _ => none

/-- JSON escaping of one character exactly as Python
`json.dumps(..., ensure_ascii=True)` (the default) performs it: the named
escapes for `"`, `\`, backspace, form feed, newline, carriage return and
tab; printable ASCII (`0x20`-`0x7e`) literal; everything else as `\uXXXX`,
with a UTF-16 surrogate pair for characters beyond `0xFFFF`. -/
def escapeChar (c : Char) : List Char :=
  if c = '"' then ['\\', '"']
  else if c = '\\' then ['\\', '\\']
  else if c = '\n' then ['\\', 'n']
  else if c = '\t' then ['\\', 't']
  else if c = '\r' then ['\\', 'r']
  else if c.toNat = 8 then ['\\', 'b']
  else if c.toNat = 12 then ['\\', 'f']
  else if 32 ≤ c.toNat ∧ c.toNat ≤ 126 then [c]
  else if c.toNat < 65536 then '\\' :: 'u' :: toHex4 c.toNat
  else
    ('\\' :: 'u' :: toHex4 (55296 + (c.toNat - 65536) / 1024)) ++
      ('\\' :: 'u' :: toHex4 (56320 + (c.toNat - 65536) % 1024))

/-- JSON escaping of a character list. -/
def escape : List Char → List Char
  | [] => []
  | c :: rest => escapeChar c ++ escape rest

/-- A JSON string literal for `s`: `"` + escaped contents + `"`. -/
def renderStr (s : String) : List Char := '"' :: (escape s.data ++ ['"'])

/-- The items of a JSON array at `indent=2` nesting depth 2 (as
`json.dumps` separates them: `",\n"` plus four spaces). -/
def renderItems : List String → List Char
  | [] => []
  | [v] => renderStr v
  | v :: vs => renderStr v ++ (',' :: '\n' :: ' ' :: ' ' :: ' ' :: ' ' :: renderItems vs)

/-- A JSON array of strings as `json.dumps(..., indent=2)` prints it at
nesting depth 1: `[]` when empty, otherwise a multi-line list indented by
four spaces and closed by `\n  ]`. -/
def renderArr : List String → List Char
  | [] => ['[', ']']
  | v :: vs =>
    '[' :: '\n' :: ' ' :: ' ' :: ' ' :: ' ' ::
      (renderItems (v :: vs) ++ ('\n' :: ' ' :: ' ' :: (']' :: [])))

/-- The exact text of
`json.dumps({'generated_at': g, 'total_vpas': len(vpas), 'vpas': vpas}, indent=2)`
from `app.py` lines 451-455 (Python dicts preserve insertion order, so the
keys appear in this order). -/
def renderDoc (g : String) (vs : List String) : List Char :=
  '{' :: '\n' :: ' ' :: ' ' ::
    (renderStr "generated_at" ++ (':' :: ' ' ::
      (renderStr g ++ (',' :: '\n' :: ' ' :: ' ' ::
        (renderStr "total_vpas" ++ (':' :: ' ' ::
          (natRender vs.length ++ (',' :: '\n' :: ' ' :: ' ' ::
            (renderStr "vpas" ++ (':' :: ' ' ::
              (renderArr vs ++ ('\n' :: '}' :: []))))))))))))

/-- The JSON document exported by the download button (lines 451-455). -/
def json_data (g : String) (vs : List String) : String := ⟨renderDoc g vs⟩

/-- Prepend a character to the string under construction inside an
optional parse result. -/
def pushChar (c : Char) : Option (List Char × List Char) → Option (List Char × List Char)
  | some (s, r) => some (c :: s, r)
  | none => none

/-- Decode one JSON escape sequence (the characters after a backslash):
the named escapes, `\uXXXX` groups and UTF-16 surrogate pairs.  Returns
the decoded character and the rest of the input. -/
def escDecode : List Char → Option (Char × List Char)
  | [] => none
  | e :: r =>
    if e = '"' then some ('"', r)
    else if e = '\\' then some ('\\', r)
    else if e = '/' then some ('/', r)
    else if e = 'n' then some ('\n', r)
    else if e = 't' then some ('\t', r)
    else if e = 'r' then some ('\r', r)
    else if e = 'b' then some (Char.ofNat 8, r)
    else if e = 'f' then some (Char.ofNat 12, r)
    else if e = 'u' then
      match r with
      | a :: b :: c2 :: d :: r2 =>
        (hex4 a b c2 d).bind fun n =>
          if n < 55296 ∨ 57343 < n then some (Char.ofNat n, r2)
          else if n ≤ 56319 then
            match r2 with
            | bs :: u2 :: e2 :: f2 :: g2 :: h2 :: r3 =>
              if bs = '\\' ∧ u2 = 'u' then
                (hex4 e2 f2 g2 h2).bind fun m =>
                  if 56320 ≤ m ∧ m ≤ 57343 then
                    some (Char.ofNat (65536 + (n - 55296) * 1024 + (m - 56320)), r3)
                  else none
              else none
            | _ => none
          else none
      | _ => none
    else none

/-- Read the body of a JSON string literal (the opening `"` already
consumed): literal characters and escape sequences up to the closing `"`.
Returns the decoded characters and the rest of the input.  `fuel` bounds
the number of decoded characters (each step consumes at least one input
character, so any fuel above the input length suffices). -/
def strBodyF : Nat → List Char → Option (List Char × List Char)
  | 0, _ => none
  | fuel + 1, l =>
    match l with
    | [] => none
    | c :: rest =>
      if c = '"' then some ([], rest)
      else if c = '\\' then
        match escDecode rest with
        | none => none
        | some (ch, r2) => pushChar ch (strBodyF fuel r2)
      else pushChar c (strBodyF fuel rest)

/-- Read a JSON string literal including its opening quote. -/
def parseJString : List Char → Option (List Char × List Char)
  | c :: r => if c = '"' then strBodyF (r.length + 1) r else none
  | [] => none

/-- Read `"key" :` (with surrounding whitespace) where the key must equal
`keyName`; return the input positioned at the value. -/
def parseField (keyName : List Char) (l : List Char) : Option (List Char) :=
  match parseJString (skipWs l) with
  | some (k, r) =>
    if k = keyName then
      match skipWs r with
      | ':' :: r2 => some (skipWs r2)
      | _ => none
    else none
  | none => none

/-- Read the comma-separated string items of a non-empty JSON array and
its closing `]`.  `fuel` bounds the number of items (any value at least
the item count works). -/
def parseItems : Nat → List Char → Option (List String × List Char)
  | 0, _ => none
  | fuel + 1, l =>
    match parseJString l with
    | none => none
    | some (s, r) =>
      match skipWs r with
      | ',' :: r2 =>
        match parseItems fuel (skipWs r2) with
        | some (vs, r3) => some (⟨s⟩ :: vs, r3)
        | none => none
      | ']' :: r2 => some ([⟨s⟩], r2)
      | _ => none

/-- Read a JSON array of strings. -/
def parseArr (l : List Char) : Option (List String × List Char) :=
  match l with
  | '[' :: r =>
    match skipWs r with
    | ']' :: r2 => some ([], r2)
    | r1 => parseItems (r1.length + 1) r1
  | _ => none

/-- Consume one expected character. -/
def expectC (c : Char) : List Char → Option (List Char)
  | d :: rest => if d = c then some rest else none
  | [] => none

/-- Parse the exported document back: returns the `generated_at` string,
the `total_vpas` integer and the `vpas` string array. -/
def parseDoc (j : String) : Option (String × Nat × List String) :=
  (expectC '{' (skipWs j.data)).bind fun r0 =>
  (parseField "generated_at".data r0).bind fun r1 =>
  (parseJString r1).bind fun gp =>
  (expectC ',' (skipWs gp.2)).bind fun r3 =>
  (parseField "total_vpas".data r3).bind fun r4 =>
  (parseNatL r4).bind fun tvp =>
  (expectC ',' (skipWs tvp.2)).bind fun r6 =>
  (parseField "vpas".data r6).bind fun r7 =>
  (parseArr r7).bind fun vsp =>
  (expectC '}' (skipWs vsp.2)).bind fun r9 =>
  if skipWs r9 = [] then some (⟨gp.1⟩, tvp.1, vsp.1) else none

/-! ## Basic lemmas about the replace scan -/

theorem replaceAllAux_skip (pat rep : List Char) :
    ∀ (l : List Char) (k : Nat), replaceAllAux pat rep l k = replaceAll pat rep (l.drop k) := by
  intro l
  induction l with
  | nil => intro k; cases k <;> rfl
  | cons c rest ih =>
    intro k
    cases k with
    | zero => rfl
    | succ k => simpa [replaceAllAux] using ih k

theorem replaceAll_nil (pat rep : List Char) : replaceAll pat rep [] = [] := rfl

theorem replaceAll_cons (pat rep : List Char) (c : Char) (rest : List Char) :
    replaceAll pat rep (c :: rest) =
      if pat ≠ [] ∧ pat.isPrefixOf (c :: rest) then
        rep ++ replaceAll pat rep (rest.drop (pat.length - 1))
      else
        c :: replaceAll pat rep rest := by
  show replaceAllAux pat rep (c :: rest) 0 = _
  rw [replaceAllAux, replaceAllAux_skip]
  rfl

/-- If the pattern never occurs in `l`, the replace scan is the identity. -/
theorem replaceAll_of_not_occurs (pat rep : List Char) :
    ∀ l : List Char, occurs pat l = false → replaceAll pat rep l = l := by
  intro l
  induction l with
  | nil => intro _; rfl
  | cons c rest ih =>
    intro hocc
    rw [occurs, Bool.or_eq_false_iff] at hocc
    rw [replaceAll_cons, if_neg (fun hp => by simp [hocc.1] at hp), ih hocc.2]

/-! ## Combinator lemmas -/

theorem generate_vpas_length (H : List String) (t : Option String) :
    ∀ N : List String, (∀ x ∈ N, validate_phone_number x = true) →
      (generate_vpas N H t).length = N.length * H.length := by
  intro N
  induction N with
  | nil => intro _; simp [generate_vpas]
  | cons a N ih =>
    intro hv
    show ((if validate_phone_number a then H.map (mk_vpa t a) else []) ++
        generate_vpas N H t).length = _
    rw [if_pos (hv a (List.mem_cons_self a N))]
    rw [List.length_append, List.length_map, List.length_cons,
      ih (fun x hx => hv x (List.mem_cons_of_mem a hx))]
    ring

theorem generate_vpas_getElem (H : List String) (t : Option String) :
    ∀ (N : List String) (i j : Nat), (∀ x ∈ N, validate_phone_number x = true) →
      ∀ (hi : i < N.length) (hj : j < H.length),
        (generate_vpas N H t)[i * H.length + j]? = some (mk_vpa t N[i] H[j]) := by
  intro N
  induction N with
  | nil => intro i j _ hi _; exact absurd hi (by simp)
  | cons a N ih =>
    intro i j hv hi hj
    show ((if validate_phone_number a then H.map (mk_vpa t a) else []) ++
        generate_vpas N H t)[i * H.length + j]? = _
    rw [if_pos (hv a (List.mem_cons_self a N))]
    cases i with
    | zero =>
      have h0 : 0 * H.length + j = j := by ring
      rw [h0, List.getElem?_append, if_pos (by simpa using hj), List.getElem?_map,
        List.getElem?_eq_getElem hj]
      rfl
    | succ i =>
      have hidx : (i + 1) * H.length + j = H.length + (i * H.length + j) := by ring
      rw [hidx, List.getElem?_append, if_neg (by simp), List.length_map,
        Nat.add_sub_cancel_left]
      exact ih i j (fun x hx => hv x (List.mem_cons_of_mem a hx))
        (Nat.lt_of_succ_lt_succ hi) hj

/-! ## Claim C1 -/

/-- C1, counterexample: the claim says `validate_phone_number` accepts
exactly the strings whose trimmed form is 10 ASCII digits `0`-`9`, with no
locale-specific digits.  The code uses Python `str.isdigit`, which also
accepts Unicode digits: `"987654321٠"` (nine ASCII digits followed by
ARABIC-INDIC DIGIT ZERO, U+0660) is accepted by the code but contains a
character outside `0`-`9`. -/
theorem c1_counterexample :
    validate_phone_number "987654321٠" = true ∧
    specAsciiValid "987654321٠" = false := by decide

/-- C1, amended: `validate_phone_number t` is true iff the trimmed input
has length exactly 10 and every character is a digit in the sense of
Python `str.isdigit` (which includes non-ASCII Unicode digits); the
claim's concrete examples all hold. -/
theorem c1_amended (t : String) :
    (validate_phone_number t = true ↔
      (pyStrip t).length = 10 ∧ ∀ c ∈ (pyStrip t).data, pyIsDigitChar c = true) ∧
    validate_phone_number "9876543210" = true ∧
    validate_phone_number " 987654321 " = false ∧
    validate_phone_number "98765432100" = false ∧
    validate_phone_number "98765a3210" = false := by
  refine ⟨?_, by decide, by decide, by decide, by decide⟩
  unfold validate_phone_number pyIsdigitStr
  simp only [Bool.and_eq_true, beq_iff_eq, List.all_eq_true, Bool.not_eq_true']
  constructor
  · rintro ⟨h1, _, h3⟩; exact ⟨h1, h3⟩
  · rintro ⟨h1, h3⟩
    refine ⟨h1, ?_, h3⟩
    have h1' : (pyStrip t).data.length = 10 := h1
    rcases hne : (pyStrip t).data with _ | ⟨c, cs⟩
    · rw [hne] at h1'; simp at h1'
    · rfl

/-! ## Claim C3 -/

/-- C3: for all-valid numbers `N` and handles `H`, `generate_vpas`
produces exactly `|N| * |H|` identifiers, and deduplication
(`list(set(...))`) can only shrink that count. -/
theorem c3_counts (N H : List String) (t : Option String)
    (hv : ∀ x ∈ N, validate_phone_number x = true) :
    (generate_vpas N H t).length = N.length * H.length ∧
    (pyDedupe (generate_vpas N H t)).length ≤ N.length * H.length := by
  refine ⟨generate_vpas_length H t N hv, ?_⟩
  calc (pyDedupe (generate_vpas N H t)).length
      ≤ (generate_vpas N H t).length := (List.dedup_sublist _).length_le
    _ = N.length * H.length := generate_vpas_length H t N hv

/-- Witness for C3 at a concrete input. -/
theorem c3_witness :
    (generate_vpas ["9876543210", "9123456789"] ["a", "b", "c"] none).length =
      (["9876543210", "9123456789"] : List String).length *
        (["a", "b", "c"] : List String).length ∧
    (pyDedupe (generate_vpas ["9876543210", "9123456789"] ["a", "b", "c"] none)).length ≤
      (["9876543210", "9123456789"] : List String).length *
        (["a", "b", "c"] : List String).length :=
  c3_counts ["9876543210", "9123456789"] ["a", "b", "c"] none (by decide)

/-! ## Claim C5 -/

/-- C5: generation order is deterministic, numbers-major and
handles-minor: for all-valid numbers, the identifier at position
`i * |H| + j` is built from the `i`-th number and the `j`-th handle. -/
theorem c5_order (N H : List String) (t : Option String) (i j : Nat)
    (hv : ∀ x ∈ N, validate_phone_number x = true)
    (hi : i < N.length) (hj : j < H.length) :
    (generate_vpas N H t)[i * H.length + j]? = some (mk_vpa t N[i] H[j]) :=
  generate_vpas_getElem H t N i j hv hi hj

/-- Witness for C5 at a concrete input. -/
theorem c5_witness :
    (generate_vpas ["9123456789", "9876543210"] ["a", "b"]
        none)[1 * (["a", "b"] : List String).length + 0]? =
      some (mk_vpa none "9876543210" "a") :=
  c5_order ["9123456789", "9876543210"] ["a", "b"] none 1 0 (by decide)
    (by decide) (by decide)

/-! ## Claim C10 -/

/-- C10: `generate_vpas` re-validates internally, so its output on any
token list equals its output on the sublist of tokens passing
`validate_phone_number`; in particular a prefix/suffix-decorated token
such as `"+919876543210-v"` contributes no identifiers. -/
theorem c10_revalidation :
    (∀ (nums hs : List String) (t : Option String),
        generate_vpas nums hs t =
          generate_vpas (nums.filter (fun n => validate_phone_number n)) hs t) ∧
    generate_vpas ["+919876543210-v"] ["x"] none = [] := by
  refine ⟨?_, by decide⟩
  intro nums hs t
  induction nums with
  | nil => rfl
  | cons a nums ih =>
    by_cases h : validate_phone_number a = true
    · show (if validate_phone_number a then hs.map (mk_vpa t a) else []) ++
          generate_vpas nums hs t = _
      rw [List.filter_cons_of_pos h]
      show _ = (if validate_phone_number a then hs.map (mk_vpa t a) else []) ++
          generate_vpas (nums.filter (fun n => validate_phone_number n)) hs t
      rw [ih]
    · have h' : validate_phone_number a = false := by
        cases hval : validate_phone_number a
        · rfl
        · exact absurd hval h
      show (if validate_phone_number a then hs.map (mk_vpa t a) else []) ++
          generate_vpas nums hs t = _
      rw [List.filter_cons_of_neg (by simp [h']), h', if_neg (by simp)]
      simpa using ih

/-! ## Claim C8 -/

/-- C8, counterexample: the claim says a template containing neither
placeholder is substituted to the same constant string for every
(number, handle) pair.  The empty template `""` contains neither
placeholder, but Python's `if custom_format:` treats it as absent, so the
default `{number}@{handle}` format is used instead and different pairs
give different results. -/
theorem c8_counterexample :
    generate_vpas ["9876543210"] ["a"] (some "") = ["9876543210@a"] ∧
    generate_vpas ["9876543210"] ["b"] (some "") = ["9876543210@b"] ∧
    ("9876543210@a" : String) ≠ "9876543210@b" := by decide

/-- C8, amended: a NON-EMPTY malformed template is never rejected:
substitution applies both `replace` calls, and when neither placeholder
occurs the template is returned verbatim, hence the same constant string
for every valid (number, handle) pair.  (The empty template is treated as
unset and the default format applies.) -/
theorem c8_amended (t n h : String) (hv : validate_phone_number n = true)
    (ht : t ≠ "") :
    generate_vpas [n] [h] (some t) =
      [pyReplace (pyReplace t "{number}" n) "{handle}" h] ∧
    (occursStr "{number}" t = false → occursStr "{handle}" t = false →
      generate_vpas [n] [h] (some t) = [t]) := by
  have hbase : generate_vpas [n] [h] (some t) = [mk_vpa (some t) n h] := by
    show (if validate_phone_number n then [h].map (mk_vpa (some t) n) else []) ++ [] = _
    rw [if_pos hv]
    rfl
  have hmk : mk_vpa (some t) n h =
      pyReplace (pyReplace t "{number}" n) "{handle}" h := by
    show (if t = "" then _ else _) = _
    rw [if_neg ht]
  constructor
  · rw [hbase, hmk]
  · intro h1 h2
    have e1 : pyReplace t "{number}" n = t := by
      show (⟨replaceAll "{number}".data n.data t.data⟩ : String) = t
      rw [replaceAll_of_not_occurs _ _ _ h1]
    have e2 : pyReplace t "{handle}" h = t := by
      show (⟨replaceAll "{handle}".data h.data t.data⟩ : String) = t
      rw [replaceAll_of_not_occurs _ _ _ h2]
    rw [hbase, hmk, e1, e2]

/-- Witness for C8 at a concrete input. -/
theorem c8_witness : generate_vpas ["9876543210"] ["x"] (some "const") = ["const"] :=
  (c8_amended "const" "9876543210" "x" (by decide) (by decide)).2 (by decide) (by decide)

/-! ## Claim C2 (code bug) -/

/-- C2: the button handler decorates the valid numbers with the prefix and
suffix and then calls `generate_vpas`, which re-validates each decorated
token and rejects it (it is no longer 10 digits).  With prefix `"+91"`,
suffix `"-v"`, number `"9876543210"` and handle `"x"` the cycle therefore
stores an empty identifier list instead of the `["+919876543210-v@x"]`
required by the specification. -/
theorem c2_failing_input :
    ((generateClick ⟨[], []⟩ ["9876543210"] ["x"] none "+91" "-v" true
        SortOption.noSort "t").1).vpas = [] ∧
    ((generateClick ⟨[], []⟩ ["9876543210"] ["x"] none "+91" "-v" true
        SortOption.noSort "t").1).vpas ≠ ["+919876543210-v@x"] := by decide

/-! ## Claim C7 -/

/-- C7: with an empty number list or an empty handle list the handler
reports an error and leaves the state (stored result list and history)
unchanged; in every non-aborted cycle no error is reported and exactly one
history record is appended. -/
theorem c7_empty_input (st : AppState) (pn sh : List String) (cf : Option String)
    (p s : String) (rd : Bool) (so : SortOption) (now : String) :
    ((pn = [] ∨ sh = []) →
      (generateClick st pn sh cf p s rd so now).1 = st ∧
      (generateClick st pn sh cf p s rd so now).2.isSome = true) ∧
    (pn ≠ [] → sh ≠ [] →
      (generateClick st pn sh cf p s rd so now).2 = none ∧
      ∃ r : HistoryEntry,
        (generateClick st pn sh cf p s rd so now).1.history = st.history ++ [r]) := by
  constructor
  · intro hor
    rcases hor with h | h
    · unfold generateClick
      rw [if_pos h]
      exact ⟨rfl, rfl⟩
    · unfold generateClick
      by_cases hpn : pn = []
      · rw [if_pos hpn]
        exact ⟨rfl, rfl⟩
      · rw [if_neg hpn, if_pos h]
        exact ⟨rfl, rfl⟩
  · intro h1 h2
    unfold generateClick
    rw [if_neg h1, if_neg h2]
    exact ⟨rfl, _, rfl⟩

/-- Witness for C7: a concrete aborted cycle keeps the state, a concrete
non-aborted cycle reports no error. -/
theorem c7_witness :
    (generateClick ⟨["old@x"], []⟩ [] ["x"] none "" "" true
        SortOption.noSort "t").1 = ⟨["old@x"], []⟩ ∧
    (generateClick ⟨[], []⟩ ["9876543210"] ["x"] none "" "" true
        SortOption.noSort "t").2 = none := by
  constructor
  · exact ((c7_empty_input ⟨["old@x"], []⟩ [] ["x"] none "" "" true
      SortOption.noSort "t").1 (Or.inl rfl)).1
  · exact ((c7_empty_input ⟨[], []⟩ ["9876543210"] ["x"] none "" "" true
      SortOption.noSort "t").2 (by simp) (by simp)).1

/-! ## Order lemmas for the Python string comparison -/

theorem ltCharsB_cons_iff (a0 b0 : Char) (as bs : List Char) :
    ltCharsB (a0 :: as) (b0 :: bs) = true ↔
      a0 < b0 ∨ (a0 = b0 ∧ ltCharsB as bs = true) := by
  simp only [ltCharsB]
  by_cases h1 : a0 < b0
  · simp [h1]
  · by_cases h2 : b0 < a0
    · simp [h1, h2, ne_of_gt h2]
    · have he : a0 = b0 := le_antisymm (le_of_not_lt h2) (le_of_not_lt h1)
      simp [h1, h2, he]

theorem ltCharsB_irrefl : ∀ l : List Char, ltCharsB l l = false := by
  intro l
  induction l with
  | nil => rfl
  | cons a as ih => simp [ltCharsB, lt_self_iff_false, ih]

theorem ltCharsB_trans :
    ∀ a b c : List Char, ltCharsB a b = true → ltCharsB b c = true →
      ltCharsB a c = true := by
  intro a
  induction a with
  | nil =>
    intro b c hab hbc
    cases b with
    | nil => exact absurd hab (by simp [ltCharsB])
    | cons b0 bs =>
      cases c with
      | nil => exact absurd hbc (by simp [ltCharsB])
      | cons c0 cs => simp [ltCharsB]
  | cons a0 as ih =>
    intro b c hab hbc
    cases b with
    | nil => exact absurd hab (by simp [ltCharsB])
    | cons b0 bs =>
      cases c with
      | nil => exact absurd hbc (by simp [ltCharsB])
      | cons c0 cs =>
        rw [ltCharsB_cons_iff] at hab hbc ⊢
        rcases hab with h | ⟨he, hr⟩
        · rcases hbc with h2 | ⟨he2, hr2⟩
          · exact Or.inl (lt_trans h h2)
          · exact Or.inl (by rw [← he2]; exact h)
        · rcases hbc with h2 | ⟨he2, hr2⟩
          · exact Or.inl (by rw [he]; exact h2)
          · exact Or.inr ⟨he.trans he2, ih bs cs hr hr2⟩

theorem ltCharsB_asymm (a b : List Char) (h : ltCharsB a b = true) :
    ltCharsB b a = false := by
  cases hba : ltCharsB b a
  · rfl
  · have := ltCharsB_trans a b a h hba
    rw [ltCharsB_irrefl] at this
    exact absurd this (by simp)

theorem ltCharsB_false_elim :
    ∀ a b : List Char, ltCharsB a b = false → a = b ∨ ltCharsB b a = true := by
  intro a
  induction a with
  | nil =>
    intro b h
    cases b with
    | nil => exact Or.inl rfl
    | cons b0 bs => exact absurd h (by simp [ltCharsB])
  | cons a0 as ih =>
    intro b h
    cases b with
    | nil => exact Or.inr (by simp [ltCharsB])
    | cons b0 bs =>
      by_cases h1 : a0 < b0
      · exact absurd ((ltCharsB_cons_iff a0 b0 as bs).mpr (Or.inl h1)) (by simp [h])
      · by_cases h2 : b0 < a0
        · exact Or.inr ((ltCharsB_cons_iff b0 a0 bs as).mpr (Or.inl h2))
        · have he : a0 = b0 := le_antisymm (le_of_not_lt h2) (le_of_not_lt h1)
          have hrest : ltCharsB as bs = false := by
            cases hr : ltCharsB as bs
            · rfl
            · exact absurd ((ltCharsB_cons_iff a0 b0 as bs).mpr (Or.inr ⟨he, hr⟩))
                (by simp [h])
          rcases ih bs hrest with he2 | hlt
          · exact Or.inl (by rw [he, he2])
          · exact Or.inr ((ltCharsB_cons_iff b0 a0 bs as).mpr (Or.inr ⟨he.symm, hlt⟩))

theorem ltCharsB_le_trans (a b c : List Char) (h1 : ltCharsB b a = false)
    (h2 : ltCharsB c b = false) : ltCharsB c a = false := by
  cases hca : ltCharsB c a
  · rfl
  · rcases ltCharsB_false_elim c b h2 with he | hlt
    · rw [he] at hca
      rw [hca] at h1
      exact absurd h1 (by simp)
    · have := ltCharsB_trans b c a hlt hca
      rw [this] at h1
      exact absurd h1 (by simp)

/-! ## Stable sort lemmas -/

theorem insertKey_perm (key : String → String) (a : String) :
    ∀ l : List String, (insertKey key a l).Perm (a :: l) := by
  intro l
  induction l with
  | nil => exact List.Perm.refl _
  | cons b l ih =>
    show (if pyStrLt (key b) (key a) then b :: insertKey key a l
        else a :: b :: l).Perm _
    by_cases h : pyStrLt (key b) (key a) = true
    · rw [if_pos h]
      exact (ih.cons b).trans (List.Perm.swap a b l)
    · rw [if_neg h]

theorem sortByKey_perm (key : String → String) :
    ∀ l : List String, (sortByKey key l).Perm l := by
  intro l
  induction l with
  | nil => exact List.Perm.refl _
  | cons a l ih =>
    show (insertKey key a (sortByKey key l)).Perm (a :: l)
    exact (insertKey_perm key a _).trans (ih.cons a)

theorem insertKey_pairwise (key : String → String) (a : String) :
    ∀ l : List String,
      List.Pairwise (fun x y => pyStrLt (key y) (key x) = false) l →
      List.Pairwise (fun x y => pyStrLt (key y) (key x) = false)
        (insertKey key a l) := by
  intro l
  induction l with
  | nil => intro _; exact List.pairwise_singleton _ _
  | cons b l ih =>
    intro hp
    rw [List.pairwise_cons] at hp
    obtain ⟨hb, hl⟩ := hp
    show List.Pairwise _ (if pyStrLt (key b) (key a) then b :: insertKey key a l
        else a :: b :: l)
    by_cases h : pyStrLt (key b) (key a) = true
    · rw [if_pos h, List.pairwise_cons]
      constructor
      · intro x hx
        rcases List.mem_cons.mp ((insertKey_perm key a l).mem_iff.mp hx) with rfl | hxl
        · exact ltCharsB_asymm _ _ h
        · exact hb x hxl
      · exact ih hl
    · rw [if_neg h, List.pairwise_cons]
      have hba : pyStrLt (key b) (key a) = false := by
        cases hx : pyStrLt (key b) (key a)
        · rfl
        · exact absurd hx h
      constructor
      · intro x hx
        rcases List.mem_cons.mp hx with rfl | hxl
        · exact hba
        · exact ltCharsB_le_trans _ _ _ hba (hb x hxl)
      · exact List.pairwise_cons.mpr ⟨hb, hl⟩

theorem sortByKey_pairwise (key : String → String) :
    ∀ l : List String,
      List.Pairwise (fun x y => pyStrLt (key y) (key x) = false)
        (sortByKey key l) := by
  intro l
  induction l with
  | nil => exact List.Pairwise.nil
  | cons a l ih => exact insertKey_pairwise key a _ ih

theorem insertKey_filter_pos (key : String → String) (a k : String)
    (ha : key a = k) :
    ∀ m : List String,
      (insertKey key a m).filter (fun x => key x == k) =
        a :: m.filter (fun x => key x == k) := by
  intro m
  induction m with
  | nil => simp [insertKey, List.filter_cons, ha]
  | cons b m ih =>
    show (if pyStrLt (key b) (key a) then b :: insertKey key a m
        else a :: b :: m).filter _ = _
    by_cases h : pyStrLt (key b) (key a) = true
    · rw [if_pos h]
      have hbk : (key b == k) = false := by
        rw [beq_eq_false_iff_ne]
        intro he
        rw [he, ← ha] at h
        rw [show pyStrLt (key a) (key a) =
          ltCharsB (key a).data (key a).data from rfl, ltCharsB_irrefl] at h
        exact absurd h (by simp)
      simp [List.filter_cons, hbk, ih]
    · rw [if_neg h]
      simp [List.filter_cons, ha]

theorem insertKey_filter_neg (key : String → String) (a k : String)
    (ha : key a ≠ k) :
    ∀ m : List String,
      (insertKey key a m).filter (fun x => key x == k) =
        m.filter (fun x => key x == k) := by
  intro m
  induction m with
  | nil => simp [insertKey, List.filter_cons, beq_iff_eq, ha]
  | cons b m ih =>
    show (if pyStrLt (key b) (key a) then b :: insertKey key a m
        else a :: b :: m).filter _ = _
    by_cases h : pyStrLt (key b) (key a) = true
    · rw [if_pos h]
      simp only [List.filter_cons, ih]
    · rw [if_neg h]
      simp only [List.filter_cons]
      simp [beq_iff_eq, ha]

theorem sortByKey_filter (key : String → String) (k : String) :
    ∀ l : List String,
      (sortByKey key l).filter (fun x => key x == k) =
        l.filter (fun x => key x == k) := by
  intro l
  induction l with
  | nil => rfl
  | cons a l ih =>
    show (insertKey key a (sortByKey key l)).filter _ = _
    by_cases ha : key a = k
    · rw [insertKey_filter_pos key a k ha _, ih]
      simp [List.filter_cons, ha]
    · rw [insertKey_filter_neg key a k ha _, ih]
      simp [List.filter_cons, beq_iff_eq, ha]

/-! ## Claim C6 -/

/-- C6, counterexample: the claim says the ByHandlePart key is the ENTIRE
substring after the first `'@'`.  The code's key is `x.split('@')[1]` —
only the text between the first and second `'@'`.  On
`["n@a@z", "n@a@b"]` both code keys are `"a"` (equal, so the stable sort
keeps the input order) while the claimed keys `"a@z"`/`"a@b"` would swap
the two elements. -/
theorem c6_counterexample :
    sortByHandle ["n@a@z", "n@a@b"] = ["n@a@z", "n@a@b"] ∧
    sortByKey afterFirstAt ["n@a@z", "n@a@b"] = ["n@a@b", "n@a@z"] ∧
    (["n@a@z", "n@a@b"] : List String) ≠ ["n@a@b", "n@a@z"] := by decide

/-- C6, amended: the ByHandlePart sort orders identifiers ascending and
stably by the key `x.split('@')[1] if '@' in x else x` — the field
between the first and second `'@'` (for identifiers with more than one
`'@'` this is NOT everything after the first `'@'`), or the whole string
when there is no `'@'`.  Ascending: consecutive keys never decrease;
stable: for every key value the elements carrying it keep their input
order; the spec's example sorts as claimed. -/
theorem c6_amended :
    (∀ l : List String, (sortByHandle l).Perm l) ∧
    (∀ l : List String,
      List.Pairwise (fun x y => pyStrLt (byHandleKey y) (byHandleKey x) = false)
        (sortByHandle l)) ∧
    (∀ (l : List String) (k : String),
      (sortByHandle l).filter (fun x => byHandleKey x == k) =
        l.filter (fun x => byHandleKey x == k)) ∧
    sortByHandle ["2@b", "1@a", "3@a"] = ["1@a", "3@a", "2@b"] :=
  ⟨fun l => sortByKey_perm byHandleKey l,
   fun l => sortByKey_pairwise byHandleKey l,
   fun l k => sortByKey_filter byHandleKey k l,
   by decide⟩

/-! ## The sequential replace chain equals the simultaneous substitution -/

theorem numberLit_eq : "{number}".data = ['{', 'n', 'u', 'm', 'b', 'e', 'r', '}'] := rfl

theorem handleLit_eq : "{handle}".data = ['{', 'h', 'a', 'n', 'd', 'l', 'e', '}'] := rfl

theorem isPrefixOf_head_ne (p0 : Char) (ptl : List Char) (c : Char) (l : List Char)
    (h : p0 ≠ c) : (p0 :: ptl).isPrefixOf (c :: l) = false := by
  have hb : (p0 == c) = false := beq_eq_false_iff_ne.mpr h
  simp [List.isPrefixOf, hb]

theorem isPrefixOf_second_ne (p0 p1 : Char) (ptl : List Char) (c0 c1 : Char)
    (l : List Char) (h : p1 ≠ c1) :
    (p0 :: p1 :: ptl).isPrefixOf (c0 :: c1 :: l) = false := by
  have hb : (p1 == c1) = false := beq_eq_false_iff_ne.mpr h
  simp [List.isPrefixOf, hb]

theorem not_cond_of_false (pat l : List Char) (h : pat.isPrefixOf l = false) :
    ¬(pat ≠ [] ∧ pat.isPrefixOf l) := by
  intro hc
  rw [h] at hc
  exact absurd hc.2 (by simp)

/-- The replace scan copies verbatim any block whose characters all differ
from the pattern's first character. -/
theorem replaceAll_skip_block (pat rep : List Char) (x : Char)
    (hx : pat.head? = some x) :
    ∀ m s : List Char, (∀ c ∈ m, c ≠ x) →
      replaceAll pat rep (m ++ s) = m ++ replaceAll pat rep s := by
  intro m
  induction m with
  | nil => intro s _; rfl
  | cons c m ih =>
    intro s hm
    rw [List.cons_append, replaceAll_cons]
    have hcond : ¬(pat ≠ [] ∧ pat.isPrefixOf (c :: (m ++ s))) := by
      intro hc
      cases pat with
      | nil => simp at hx
      | cons p0 ptl =>
        have hp0 : p0 = x := by simpa using hx
        have h2 := hc.2
        simp only [List.isPrefixOf, Bool.and_eq_true, beq_iff_eq] at h2
        exact hm c (List.mem_cons_self c m) (h2.1 ▸ hp0)
    rw [if_neg hcond, ih s (fun d hd => hm d (List.mem_cons_of_mem c hd))]
    rfl

/-- A block of characters disjoint from the replacement cannot become a
prefix through the replace scan: a prefix of the output that avoids every
replacement character was already a prefix of the input. -/
theorem prefix_through_replace (pat rep : List Char) (hrep : rep ≠ []) :
    ∀ t s : List Char, (∀ b ∈ s, ∀ a ∈ rep, b ≠ a) →
      s.isPrefixOf (replaceAll pat rep t) = true → s.isPrefixOf t = true := by
  intro t
  induction t with
  | nil =>
    intro s _ hpre
    exact hpre
  | cons c rest ih =>
    intro s hdisj hpre
    rw [replaceAll_cons] at hpre
    by_cases hm : pat ≠ [] ∧ pat.isPrefixOf (c :: rest)
    · rw [if_pos hm] at hpre
      cases s with
      | nil => rfl
      | cons a s2 =>
        cases rep with
        | nil => exact absurd rfl hrep
        | cons r0 rtl =>
          rw [List.cons_append] at hpre
          simp only [List.isPrefixOf, Bool.and_eq_true, beq_iff_eq] at hpre
          exact absurd hpre.1
            (hdisj a (List.mem_cons_self a s2) r0 (List.mem_cons_self r0 rtl))
    · rw [if_neg hm] at hpre
      cases s with
      | nil => rfl
      | cons a s2 =>
        simp only [List.isPrefixOf, Bool.and_eq_true, beq_iff_eq] at hpre ⊢
        exact ⟨hpre.1, ih s2 (fun b hb => hdisj b (List.mem_cons_of_mem a hb)) hpre.2⟩

/-- The `{number}` replace scan copies the literal characters of
`{handle}` verbatim (the two placeholder tokens cannot overlap). -/
theorem pn_skip_handle (n : List Char) (t2 : List Char) :
    replaceAll ['{', 'n', 'u', 'm', 'b', 'e', 'r', '}'] n
        ('{' :: 'h' :: 'a' :: 'n' :: 'd' :: 'l' :: 'e' :: '}' :: t2) =
      '{' :: 'h' :: 'a' :: 'n' :: 'd' :: 'l' :: 'e' :: '}' ::
        replaceAll ['{', 'n', 'u', 'm', 'b', 'e', 'r', '}'] n t2 := by
  rw [replaceAll_cons,
    if_neg (not_cond_of_false _ _ (isPrefixOf_second_ne _ _ _ _ _ _ (by decide)))]
  rw [replaceAll_cons,
    if_neg (not_cond_of_false _ _ (isPrefixOf_head_ne _ _ _ _ (by decide)))]
  rw [replaceAll_cons,
    if_neg (not_cond_of_false _ _ (isPrefixOf_head_ne _ _ _ _ (by decide)))]
  rw [replaceAll_cons,
    if_neg (not_cond_of_false _ _ (isPrefixOf_head_ne _ _ _ _ (by decide)))]
  rw [replaceAll_cons,
    if_neg (not_cond_of_false _ _ (isPrefixOf_head_ne _ _ _ _ (by decide)))]
  rw [replaceAll_cons,
    if_neg (not_cond_of_false _ _ (isPrefixOf_head_ne _ _ _ _ (by decide)))]
  rw [replaceAll_cons,
    if_neg (not_cond_of_false _ _ (isPrefixOf_head_ne _ _ _ _ (by decide)))]
  rw [replaceAll_cons,
    if_neg (not_cond_of_false _ _ (isPrefixOf_head_ne _ _ _ _ (by decide)))]

/-- Key refinement lemma: for a replacement `n` that is non-empty and uses
no character of `{handle}`, applying the `{number}` replace and then the
`{handle}` replace (as the code does) computes the simultaneous
substitution the spec describes. -/
theorem seq_eq_spec (n h : List Char) (hne : n ≠ [])
    (hdisj : ∀ c ∈ n, ∀ b ∈ ['{', 'h', 'a', 'n', 'd', 'l', 'e', '}'], c ≠ b) :
    ∀ (N : Nat) (t : List Char), t.length ≤ N →
      replaceAll ['{', 'h', 'a', 'n', 'd', 'l', 'e', '}'] h
          (replaceAll ['{', 'n', 'u', 'm', 'b', 'e', 'r', '}'] n t) =
        specSubst n h t := by
  intro N
  induction N with
  | zero =>
    intro t ht
    have ht0 : t = [] := List.eq_nil_of_length_eq_zero (Nat.le_zero.mp ht)
    subst ht0
    simp [specSubst, replaceAll, replaceAllAux]
  | succ N ihN =>
    intro t ht
    cases t with
    | nil => simp [specSubst, replaceAll, replaceAllAux]
    | cons c rest =>
      rw [specSubst, numberLit_eq, handleLit_eq]
      by_cases h1 : (['{', 'n', 'u', 'm', 'b', 'e', 'r', '}'] : List Char).isPrefixOf
          (c :: rest) = true
      · rw [if_pos h1]
        rw [replaceAll_cons, if_pos ⟨by simp, h1⟩]
        have l7 : (['{', 'n', 'u', 'm', 'b', 'e', 'r', '}'] : List Char).length - 1 = 7 := rfl
        rw [l7]
        rw [replaceAll_skip_block ['{', 'h', 'a', 'n', 'd', 'l', 'e', '}'] h '{' rfl n _
          (fun d hd => hdisj d hd '{' (by simp))]
        rw [ihN (rest.drop 7)
          (by simp only [List.length_drop]; simp only [List.length_cons] at ht; omega)]
      · by_cases h2 : (['{', 'h', 'a', 'n', 'd', 'l', 'e', '}'] : List Char).isPrefixOf
            (c :: rest) = true
        · rw [if_neg h1, if_pos h2]
          obtain ⟨t2, ht2⟩ := List.isPrefixOf_iff_prefix.mp h2
          have h3 : '{' = c ∧ 'h' :: 'a' :: 'n' :: 'd' :: 'l' :: 'e' :: '}' :: t2 = rest := by
            simpa only [List.cons_append, List.nil_append, List.cons.injEq] using ht2
          obtain ⟨hc1, hc2⟩ := h3
          subst hc1
          subst hc2
          rw [pn_skip_handle n t2]
          rw [replaceAll_cons, if_pos ⟨by simp, by simp [List.isPrefixOf]⟩]
          have l7b : (['{', 'h', 'a', 'n', 'd', 'l', 'e', '}'] : List Char).length - 1 = 7 := rfl
          rw [l7b]
          show h ++ replaceAll ['{', 'h', 'a', 'n', 'd', 'l', 'e', '}'] h
              (replaceAll ['{', 'n', 'u', 'm', 'b', 'e', 'r', '}'] n t2) = _
          rw [ihN t2 (by simp only [List.length_cons] at ht; omega)]
          rfl
        · rw [if_neg h1, if_neg h2]
          have h1f : (['{', 'n', 'u', 'm', 'b', 'e', 'r', '}'] : List Char).isPrefixOf
              (c :: rest) = false := by
            cases hx : (['{', 'n', 'u', 'm', 'b', 'e', 'r', '}'] : List Char).isPrefixOf (c :: rest)
            · rfl
            · exact absurd hx h1
          rw [replaceAll_cons, if_neg (not_cond_of_false _ _ h1f)]
          have hout : (['{', 'h', 'a', 'n', 'd', 'l', 'e', '}'] : List Char).isPrefixOf
              (c :: replaceAll ['{', 'n', 'u', 'm', 'b', 'e', 'r', '}'] n rest) = false := by
            cases hx : (['{', 'h', 'a', 'n', 'd', 'l', 'e', '}'] : List Char).isPrefixOf
                (c :: replaceAll ['{', 'n', 'u', 'm', 'b', 'e', 'r', '}'] n rest)
            · rfl
            · exfalso
              simp only [List.isPrefixOf, Bool.and_eq_true, beq_iff_eq] at hx
              have hdisj2 : ∀ b ∈ ['h', 'a', 'n', 'd', 'l', 'e', '}'], ∀ a ∈ n, b ≠ a :=
                fun b hb a ha => (hdisj a ha b (List.mem_cons_of_mem '{' hb)).symm
              have hpre := prefix_through_replace ['{', 'n', 'u', 'm', 'b', 'e', 'r', '}'] n
                hne rest ['h', 'a', 'n', 'd', 'l', 'e', '}'] hdisj2 hx.2
              have hfull : (['{', 'h', 'a', 'n', 'd', 'l', 'e', '}'] : List Char).isPrefixOf
                  (c :: rest) = true := by
                simp only [List.isPrefixOf, Bool.and_eq_true, beq_iff_eq]
                exact ⟨hx.1, hpre⟩
              exact h2 hfull
          rw [replaceAll_cons, if_neg (not_cond_of_false _ _ hout)]
          rw [ihN rest (by simp only [List.length_cons] at ht; omega)]

/-! ## Characters of a validated number -/

theorem validate_parts (n : String) (hv : validate_phone_number n = true) :
    (pyStrip n).data.length = 10 ∧ ∀ x ∈ (pyStrip n).data, pyIsDigitChar x = true := by
  unfold validate_phone_number pyIsdigitStr at hv
  rw [Bool.and_eq_true, Bool.and_eq_true] at hv
  refine ⟨beq_iff_eq.mp hv.1, ?_⟩
  intro x hx
  exact List.all_eq_true.mp hv.2.2 x hx

theorem valid_chars (n : String) (hv : validate_phone_number n = true) :
    ∀ c ∈ n.data, pyIsSpaceChar c = true ∨ pyIsDigitChar c = true := by
  intro c hc
  have hsplit : n.data.takeWhile pyIsSpaceChar ++ n.data.dropWhile pyIsSpaceChar = n.data :=
    List.takeWhile_append_dropWhile pyIsSpaceChar n.data
  rw [← hsplit] at hc
  rcases List.mem_append.mp hc with h1 | h2
  · exact Or.inl (List.mem_takeWhile_imp h1)
  · have hA : n.data.dropWhile pyIsSpaceChar =
        ((n.data.dropWhile pyIsSpaceChar).reverse.dropWhile pyIsSpaceChar).reverse ++
          ((n.data.dropWhile pyIsSpaceChar).reverse.takeWhile pyIsSpaceChar).reverse := by
      calc n.data.dropWhile pyIsSpaceChar
          = (n.data.dropWhile pyIsSpaceChar).reverse.reverse := (List.reverse_reverse _).symm
        _ = ((n.data.dropWhile pyIsSpaceChar).reverse.takeWhile pyIsSpaceChar ++
              (n.data.dropWhile pyIsSpaceChar).reverse.dropWhile pyIsSpaceChar).reverse := by
            rw [List.takeWhile_append_dropWhile]
        _ = _ := by rw [List.reverse_append]
    rw [hA] at h2
    rcases List.mem_append.mp h2 with h3 | h4
    · exact Or.inr ((validate_parts n hv).2 c h3)
    · exact Or.inl (List.mem_takeWhile_imp (List.mem_reverse.mp h4))

theorem valid_ne_nil (n : String) (hv : validate_phone_number n = true) :
    n.data ≠ [] := by
  intro he
  have h1 := (validate_parts n hv).1
  rw [show (pyStrip n).data =
      ((n.data.dropWhile pyIsSpaceChar).reverse.dropWhile pyIsSpaceChar).reverse from rfl,
    he] at h1
  simp at h1

theorem valid_disjoint (n : String) (hv : validate_phone_number n = true) :
    ∀ c ∈ n.data, ∀ b ∈ ['{', 'h', 'a', 'n', 'd', 'l', 'e', '}'], c ≠ b := by
  intro c hc b hb
  have hnw : pyIsSpaceChar b = false := by fin_cases hb <;> decide
  have hnd : pyIsDigitChar b = false := by fin_cases hb <;> decide
  intro he
  rcases valid_chars n hv c hc with hws | hdig
  · rw [he, hnw] at hws
    exact absurd hws (by simp)
  · rw [he, hnd] at hdig
    exact absurd hdig (by simp)

/-! ## Claim C4 -/

/-- C4: for a valid number and any handle, the default template yields
`number@handle`, and a caller-supplied template (which, per the data
model, contains the two placeholder tokens) is substituted verbatim: the
code's sequential `replace('{number}', ...).replace('{handle}', ...)`
equals the simultaneous replacement of every placeholder occurrence
(`specSubstStr`); the spec's two concrete examples hold. -/
theorem c4_templates (n h t : String) (hv : validate_phone_number n = true)
    (ht1 : occursStr "{number}" t = true) (ht2 : occursStr "{handle}" t = true) :
    generate_vpas [n] [h] none = [n ++ "@" ++ h] ∧
    generate_vpas [n] [h] (some t) = [specSubstStr t n h] ∧
    generate_vpas ["9876543210"] ["paytm"] none = ["9876543210@paytm"] ∧
    generate_vpas ["9876543210"] ["paytm"] (some "{handle}:{number}") =
      ["paytm:9876543210"] := by
  refine ⟨?_, ?_, by decide, by decide⟩
  · show (if validate_phone_number n then [h].map (mk_vpa none n) else []) ++ [] = _
    rw [if_pos hv]
    rfl
  · show (if validate_phone_number n then [h].map (mk_vpa (some t) n) else []) ++ [] = _
    rw [if_pos hv]
    have htne : t ≠ "" := by
      intro he
      subst he
      have h0 : occurs "{number}".data ([] : List Char) = true := ht1
      rw [show occurs "{number}".data ([] : List Char) = "{number}".data.isEmpty from rfl] at h0
      exact absurd h0 (by decide)
    have hm : mk_vpa (some t) n h = specSubstStr t n h := by
      show (if t = "" then n ++ "@" ++ h
        else pyReplace (pyReplace t "{number}" n) "{handle}" h) = _
      rw [if_neg htne]
      show (⟨replaceAll "{handle}".data h.data
          (replaceAll "{number}".data n.data t.data)⟩ : String) = _
      rw [numberLit_eq, handleLit_eq]
      rw [seq_eq_spec n.data h.data (valid_ne_nil n hv) (valid_disjoint n hv)
        t.data.length t.data (le_refl _)]
      rfl
    show [mk_vpa (some t) n h] = [specSubstStr t n h]
    rw [hm]

/-- Witness for C4 at the spec's concrete custom-template example. -/
theorem c4_witness :
    generate_vpas ["9876543210"] ["paytm"] (some "{handle}:{number}") =
      ["paytm:9876543210"] :=
  (c4_templates "9876543210" "paytm" "{handle}:{number}" (by decide) (by decide)
    (by decide)).2.2.2

/-! ## Decimal and hexadecimal rendering round trips -/

theorem hexVal_hexDigitChar : ∀ k, k < 16 → hexVal (hexDigitChar k) = some k := by decide

theorem digitChar_facts :
    ∀ k, k < 10 → isDigitC (digitChar k) = true ∧ (digitChar k).toNat - 48 = k := by decide

theorem hex4_toHex4 (n : Nat) (hn : n < 65536) :
    hex4 (hexDigitChar (n / 4096 % 16)) (hexDigitChar (n / 256 % 16))
      (hexDigitChar (n / 16 % 16)) (hexDigitChar (n % 16)) = some n := by
  unfold hex4
  rw [hexVal_hexDigitChar _ (Nat.mod_lt _ (by omega)),
    hexVal_hexDigitChar _ (Nat.mod_lt _ (by omega)),
    hexVal_hexDigitChar _ (Nat.mod_lt _ (by omega)),
    hexVal_hexDigitChar _ (Nat.mod_lt _ (by omega))]
  show some ((((n / 4096 % 16) * 16 + n / 256 % 16) * 16 + n / 16 % 16) * 16 + n % 16) = some n
  congr 1
  omega

theorem natRenderAux_eq :
    ∀ (N n : Nat) (acc : List Char), n ≤ N → natRenderAux n acc = natRender n ++ acc := by
  intro N
  induction N with
  | zero =>
    intro n acc hn
    have h0 : n = 0 := Nat.le_zero.mp hn
    subst h0
    rw [natRenderAux, if_pos (show (0 : Nat) < 10 by decide)]
    show _ = natRenderAux 0 [] ++ acc
    rw [natRenderAux, if_pos (show (0 : Nat) < 10 by decide)]
    rfl
  | succ N ih =>
    intro n acc hn
    by_cases h : n < 10
    · rw [natRenderAux, if_pos h]
      show _ = natRenderAux n [] ++ acc
      rw [natRenderAux, if_pos h]
      rfl
    · rw [natRenderAux, if_neg h]
      rw [ih (n / 10) _ (by omega)]
      show _ = natRenderAux n [] ++ acc
      rw [natRenderAux, if_neg h, ih (n / 10) _ (by omega)]
      simp [List.append_assoc]

theorem natRender_step (n : Nat) (h : ¬n < 10) :
    natRender n = natRender (n / 10) ++ [digitChar (n % 10)] := by
  show natRenderAux n [] = _
  rw [natRenderAux, if_neg h, natRenderAux_eq (n / 10) (n / 10) _ (le_refl _)]

theorem natRender_small (n : Nat) (h : n < 10) : natRender n = [digitChar n] := by
  show natRenderAux n [] = _
  rw [natRenderAux, if_pos h]

theorem natRender_digits : ∀ (N n : Nat), n ≤ N → ∀ c ∈ natRender n, isDigitC c = true := by
  intro N
  induction N with
  | zero =>
    intro n hn c hc
    have h0 : n = 0 := Nat.le_zero.mp hn
    subst h0
    rw [natRender_small 0 (by omega)] at hc
    rcases List.mem_singleton.mp hc with rfl
    exact (digitChar_facts 0 (by omega)).1
  | succ N ih =>
    intro n hn c hc
    by_cases h : n < 10
    · rw [natRender_small n h] at hc
      rcases List.mem_singleton.mp hc with rfl
      exact (digitChar_facts n h).1
    · rw [natRender_step n h] at hc
      rcases List.mem_append.mp hc with h1 | h2
      · exact ih (n / 10) (by omega) c h1
      · rcases List.mem_singleton.mp h2 with rfl
        exact (digitChar_facts (n % 10) (by omega)).1

theorem natRender_ne_nil (n : Nat) : natRender n ≠ [] := by
  by_cases h : n < 10
  · rw [natRender_small n h]
    simp
  · rw [natRender_step n h]
    simp

theorem digitsVal_natRender : ∀ (N n : Nat), n ≤ N → digitsVal (natRender n) = n := by
  intro N
  induction N with
  | zero =>
    intro n hn
    have h0 : n = 0 := Nat.le_zero.mp hn
    subst h0
    rw [natRender_small 0 (by decide)]
    decide
  | succ N ih =>
    intro n hn
    by_cases h : n < 10
    · rw [natRender_small n h]
      show 10 * 0 + ((digitChar n).toNat - 48) = n
      rw [(digitChar_facts n h).2]
      omega
    · rw [natRender_step n h]
      unfold digitsVal
      rw [List.foldl_append]
      show 10 * List.foldl _ 0 (natRender (n / 10)) + ((digitChar (n % 10)).toNat - 48) = n
      rw [show List.foldl (fun a c => 10 * a + (c.toNat - 48)) 0 (natRender (n / 10)) =
          digitsVal (natRender (n / 10)) from rfl]
      rw [ih (n / 10) (by omega), (digitChar_facts (n % 10) (by omega)).2]
      omega

theorem takeWhile_all_append (p : Char → Bool) :
    ∀ (xs : List Char) (y : Char) (rest : List Char),
      (∀ x ∈ xs, p x = true) → p y = false →
      (xs ++ y :: rest).takeWhile p = xs ∧ (xs ++ y :: rest).dropWhile p = y :: rest := by
  intro xs
  induction xs with
  | nil =>
    intro y rest _ hy
    constructor
    · show (y :: rest).takeWhile p = []
      rw [List.takeWhile_cons, hy]
      simp
    · show (y :: rest).dropWhile p = y :: rest
      rw [List.dropWhile_cons, hy]
      simp
  | cons x xs ih =>
    intro y rest hxs hy
    have hx : p x = true := hxs x (List.mem_cons_self x xs)
    obtain ⟨h1, h2⟩ := ih y rest (fun z hz => hxs z (List.mem_cons_of_mem x hz)) hy
    constructor
    · show ((x :: (xs ++ y :: rest)).takeWhile p) = x :: xs
      rw [List.takeWhile_cons, hx, h1]
      simp
    · show ((x :: (xs ++ y :: rest)).dropWhile p) = y :: rest
      rw [List.dropWhile_cons, hx, h2]
      simp

theorem parseNatL_round (n : Nat) (y : Char) (rest : List Char)
    (hy : isDigitC y = false) :
    parseNatL (natRender n ++ y :: rest) = some (n, y :: rest) := by
  obtain ⟨h1, h2⟩ := takeWhile_all_append isDigitC (natRender n) y rest
    (natRender_digits n n (le_refl n)) hy
  unfold parseNatL
  rw [h1, h2, if_neg (natRender_ne_nil n), digitsVal_natRender n n (le_refl n)]

theorem skipWs_of_head_not_ws (c : Char) (l : List Char) (h : isWsC c = false) :
    skipWs (c :: l) = c :: l := by
  rw [skipWs, h]
  rfl

theorem skipWs_natRender (n : Nat) (X : List Char) :
    skipWs (natRender n ++ X) = natRender n ++ X := by
  cases hnr : natRender n with
  | nil => exact absurd hnr (natRender_ne_nil n)
  | cons d ds =>
    have hd : isDigitC d = true :=
      natRender_digits n n (le_refl n) d (by rw [hnr]; exact List.mem_cons_self _ _)
    have h48 : 48 ≤ d.toNat ∧ d.toNat ≤ 57 := by
      simpa [isDigitC, Bool.and_eq_true, decide_eq_true_eq] using hd
    rw [List.cons_append]
    refine skipWs_of_head_not_ws _ _ ?_
    simp only [isWsC, Bool.or_eq_false_iff, decide_eq_false_iff_not]
    refine ⟨⟨⟨fun he => ?_, fun he => ?_⟩, fun he => ?_⟩, fun he => ?_⟩ <;>
      (subst he; exact absurd h48 (by decide))

/-! ## JSON string escape round trip -/

theorem obind_some {α β : Type} (a : α) (f : α → Option β) : (some a).bind f = f a := rfl

theorem char_not_surrogate (c : Char) : c.toNat < 55296 ∨ 57343 < c.toNat := by
  rcases c.valid with h | h
  · exact Or.inl h
  · exact Or.inr h.1

theorem char_lt (c : Char) : c.toNat < 1114112 := by
  rcases c.valid with h | h
  · exact lt_trans h (by decide)
  · exact h.2

theorem escDecode_u (a b c2 d : Char) (r2 : List Char) (n : Nat)
    (hx : hex4 a b c2 d = some n) (hval : n < 55296 ∨ 57343 < n) :
    escDecode ('u' :: a :: b :: c2 :: d :: r2) = some (Char.ofNat n, r2) := by
  have step1 : escDecode ('u' :: a :: b :: c2 :: d :: r2) =
      (hex4 a b c2 d).bind fun n =>
        if n < 55296 ∨ 57343 < n then some (Char.ofNat n, r2)
        else if n ≤ 56319 then
          match r2 with
          | bs :: u2 :: e2 :: f2 :: g2 :: h2 :: r3 =>
            if bs = '\\' ∧ u2 = 'u' then
              (hex4 e2 f2 g2 h2).bind fun m =>
                if 56320 ≤ m ∧ m ≤ 57343 then
                  some (Char.ofNat (65536 + (n - 55296) * 1024 + (m - 56320)), r3)
                else none
            else none
          | _ => none
        else none := rfl
  rw [step1, hx, obind_some, if_pos hval]

theorem escDecode_u2 (a b c2 d e2 f2 g2 h2 : Char) (r3 : List Char) (n m : Nat)
    (hx : hex4 a b c2 d = some n) (hx2 : hex4 e2 f2 g2 h2 = some m)
    (hg1 : ¬(n < 55296 ∨ 57343 < n)) (hg2 : n ≤ 56319)
    (hg3 : 56320 ≤ m ∧ m ≤ 57343) :
    escDecode ('u' :: a :: b :: c2 :: d :: '\\' :: 'u' :: e2 :: f2 :: g2 :: h2 :: r3) =
      some (Char.ofNat (65536 + (n - 55296) * 1024 + (m - 56320)), r3) := by
  have step1 : escDecode ('u' :: a :: b :: c2 :: d :: '\\' :: 'u' :: e2 :: f2 :: g2 :: h2 :: r3) =
      (hex4 a b c2 d).bind fun n =>
        if n < 55296 ∨ 57343 < n then
          some (Char.ofNat n, '\\' :: 'u' :: e2 :: f2 :: g2 :: h2 :: r3)
        else if n ≤ 56319 then
          (if ('\\' : Char) = '\\' ∧ ('u' : Char) = 'u' then
            (hex4 e2 f2 g2 h2).bind fun m =>
              if 56320 ≤ m ∧ m ≤ 57343 then
                some (Char.ofNat (65536 + (n - 55296) * 1024 + (m - 56320)), r3)
              else none
          else none)
        else none := rfl
  rw [step1, hx, obind_some, if_neg hg1, if_pos hg2, if_pos ⟨rfl, rfl⟩, hx2, obind_some,
    if_pos hg3]

theorem escapeChar_length (c : Char) : 1 ≤ (escapeChar c).length := by
  unfold escapeChar
  split_ifs <;> simp [toHex4]

theorem escape_length : ∀ s : List Char, s.length ≤ (escape s).length := by
  intro s
  induction s with
  | nil => simp [escape]
  | cons c s ih =>
    show (c :: s).length ≤ (escapeChar c ++ escape s).length
    rw [List.length_append, List.length_cons]
    have := escapeChar_length c
    omega

theorem surrogate_step (f : Nat) (X : List Char) (hi lo : Nat)
    (hhi : hi < 65536) (hlo : lo < 65536)
    (hg1 : ¬(hi < 55296 ∨ 57343 < hi)) (hg2 : hi ≤ 56319)
    (hg3 : 56320 ≤ lo ∧ lo ≤ 57343) :
    strBodyF (f + 1) (('\\' :: 'u' :: toHex4 hi) ++ (('\\' :: 'u' :: toHex4 lo) ++ X)) =
      pushChar (Char.ofNat (65536 + (hi - 55296) * 1024 + (lo - 56320))) (strBodyF f X) := by
  rw [show ('\\' :: 'u' :: toHex4 hi) ++ (('\\' :: 'u' :: toHex4 lo) ++ X) =
      '\\' :: 'u' :: hexDigitChar (hi / 4096 % 16) :: hexDigitChar (hi / 256 % 16) ::
        hexDigitChar (hi / 16 % 16) :: hexDigitChar (hi % 16) ::
      '\\' :: 'u' :: hexDigitChar (lo / 4096 % 16) :: hexDigitChar (lo / 256 % 16) ::
        hexDigitChar (lo / 16 % 16) :: hexDigitChar (lo % 16) :: X from rfl]
  show (match escDecode ('u' :: hexDigitChar (hi / 4096 % 16) :: hexDigitChar (hi / 256 % 16) ::
      hexDigitChar (hi / 16 % 16) :: hexDigitChar (hi % 16) ::
      '\\' :: 'u' :: hexDigitChar (lo / 4096 % 16) :: hexDigitChar (lo / 256 % 16) ::
      hexDigitChar (lo / 16 % 16) :: hexDigitChar (lo % 16) :: X) with
    | none => none
    | some (ch, r2) => pushChar ch (strBodyF f r2)) = _
  rw [escDecode_u2 _ _ _ _ _ _ _ _ _ hi lo (hex4_toHex4 hi hhi) (hex4_toHex4 lo hlo)
    hg1 hg2 hg3]

set_option maxRecDepth 4000 in
theorem strBodyF_escape :
    ∀ (s : List Char) (fuel : Nat) (rest : List Char), s.length < fuel →
      strBodyF fuel (escape s ++ ('"' :: rest)) = some (s, rest) := by
  intro s
  induction s with
  | nil =>
    intro fuel rest hf
    cases fuel with
    | zero => exact absurd hf (by omega)
    | succ f => rfl
  | cons c s ih =>
    intro fuel rest hf
    cases fuel with
    | zero => exact absurd hf (by omega)
    | succ f =>
      have hflen : s.length < f := by simp only [List.length_cons] at hf; omega
      have hassoc : escape (c :: s) ++ ('"' :: rest) =
          escapeChar c ++ (escape s ++ ('"' :: rest)) := by
        show (escapeChar c ++ escape s) ++ ('"' :: rest) = _
        rw [List.append_assoc]
      rw [hassoc]
      by_cases h1 : c = '"'
      · subst h1
        show pushChar '"' (strBodyF f (escape s ++ ('"' :: rest))) = _
        rw [ih f rest hflen]
        rfl
      · by_cases h2 : c = '\\'
        · subst h2
          show pushChar '\\' (strBodyF f (escape s ++ ('"' :: rest))) = _
          rw [ih f rest hflen]
          rfl
        · by_cases h3 : c = '\n'
          · subst h3
            show pushChar '\n' (strBodyF f (escape s ++ ('"' :: rest))) = _
            rw [ih f rest hflen]
            rfl
          · by_cases h4 : c = '\t'
            · subst h4
              show pushChar '\t' (strBodyF f (escape s ++ ('"' :: rest))) = _
              rw [ih f rest hflen]
              rfl
            · by_cases h5 : c = '\r'
              · subst h5
                show pushChar '\r' (strBodyF f (escape s ++ ('"' :: rest))) = _
                rw [ih f rest hflen]
                rfl
              · by_cases h6 : c.toNat = 8
                · have hesc : escapeChar c = ['\\', 'b'] := by
                    unfold escapeChar
                    rw [if_neg h1, if_neg h2, if_neg h3, if_neg h4, if_neg h5, if_pos h6]
                  rw [hesc]
                  show pushChar (Char.ofNat 8) (strBodyF f (escape s ++ ('"' :: rest))) = _
                  rw [ih f rest hflen]
                  show some (Char.ofNat 8 :: s, rest) = some (c :: s, rest)
                  rw [show Char.ofNat 8 = c from by rw [← h6, Char.ofNat_toNat]]
                · by_cases h7 : c.toNat = 12
                  · have hesc : escapeChar c = ['\\', 'f'] := by
                      unfold escapeChar
                      rw [if_neg h1, if_neg h2, if_neg h3, if_neg h4, if_neg h5, if_neg h6,
                        if_pos h7]
                    rw [hesc]
                    show pushChar (Char.ofNat 12) (strBodyF f (escape s ++ ('"' :: rest))) = _
                    rw [ih f rest hflen]
                    show some (Char.ofNat 12 :: s, rest) = some (c :: s, rest)
                    rw [show Char.ofNat 12 = c from by rw [← h7, Char.ofNat_toNat]]
                  · by_cases h8 : 32 ≤ c.toNat ∧ c.toNat ≤ 126
                    · have hesc : escapeChar c = [c] := by
                        unfold escapeChar
                        rw [if_neg h1, if_neg h2, if_neg h3, if_neg h4, if_neg h5, if_neg h6,
                          if_neg h7, if_pos h8]
                      rw [hesc,
                        show ([c] : List Char) ++ (escape s ++ ('"' :: rest)) =
                          c :: (escape s ++ ('"' :: rest)) from rfl]
                      rw [strBodyF, if_neg h1, if_neg h2, ih f rest hflen]
                      rfl
                    · by_cases h9 : c.toNat < 65536
                      · have hesc : escapeChar c = '\\' :: 'u' :: toHex4 c.toNat := by
                          unfold escapeChar
                          rw [if_neg h1, if_neg h2, if_neg h3, if_neg h4, if_neg h5, if_neg h6,
                            if_neg h7, if_neg h8, if_pos h9]
                        rw [hesc,
                          show toHex4 c.toNat = [hexDigitChar (c.toNat / 4096 % 16),
                            hexDigitChar (c.toNat / 256 % 16), hexDigitChar (c.toNat / 16 % 16),
                            hexDigitChar (c.toNat % 16)] from rfl,
                          show ('\\' :: 'u' :: [hexDigitChar (c.toNat / 4096 % 16),
                              hexDigitChar (c.toNat / 256 % 16), hexDigitChar (c.toNat / 16 % 16),
                              hexDigitChar (c.toNat % 16)]) ++ (escape s ++ ('"' :: rest)) =
                            '\\' :: 'u' :: hexDigitChar (c.toNat / 4096 % 16) ::
                              hexDigitChar (c.toNat / 256 % 16) ::
                              hexDigitChar (c.toNat / 16 % 16) :: hexDigitChar (c.toNat % 16) ::
                              (escape s ++ ('"' :: rest)) from rfl]
                        show (match escDecode ('u' :: hexDigitChar (c.toNat / 4096 % 16) ::
                            hexDigitChar (c.toNat / 256 % 16) :: hexDigitChar (c.toNat / 16 % 16) ::
                            hexDigitChar (c.toNat % 16) :: (escape s ++ ('"' :: rest))) with
                          | none => none
                          | some (ch, r2) => pushChar ch (strBodyF f r2)) = some (c :: s, rest)
                        rw [escDecode_u _ _ _ _ _ c.toNat (hex4_toHex4 c.toNat h9)
                          (char_not_surrogate c)]
                        show pushChar (Char.ofNat c.toNat)
                          (strBodyF f (escape s ++ ('"' :: rest))) = _
                        rw [Char.ofNat_toNat, ih f rest hflen]
                        rfl
                      · have hbig : 65536 ≤ c.toNat := by omega
                        have hlt : c.toNat < 1114112 := char_lt c
                        have hesc : escapeChar c =
                            ('\\' :: 'u' :: toHex4 (55296 + (c.toNat - 65536) / 1024)) ++
                              ('\\' :: 'u' :: toHex4 (56320 + (c.toNat - 65536) % 1024)) := by
                          unfold escapeChar
                          rw [if_neg h1, if_neg h2, if_neg h3, if_neg h4, if_neg h5, if_neg h6,
                            if_neg h7, if_neg h8, if_neg h9]
                        rw [hesc, List.append_assoc]
                        rw [surrogate_step f (escape s ++ ('"' :: rest))
                          (55296 + (c.toNat - 65536) / 1024) (56320 + (c.toNat - 65536) % 1024)
                          (by omega) (by omega) (by omega) (by omega) (by omega)]
                        rw [show 65536 +
                            ((55296 + (c.toNat - 65536) / 1024) - 55296) * 1024 +
                            ((56320 + (c.toNat - 65536) % 1024) - 56320) = c.toNat from by omega]
                        rw [Char.ofNat_toNat, ih f rest hflen]
                        rfl

/-! ## Composing the document parse -/

theorem parseJString_render (s : String) (rest : List Char) :
    parseJString (renderStr s ++ rest) = some (s.data, rest) := by
  have hsplit : renderStr s ++ rest = '"' :: (escape s.data ++ ('"' :: rest)) := by
    show ('"' :: (escape s.data ++ ['"'])) ++ rest = _
    simp [List.cons_append, List.append_assoc]
  rw [hsplit]
  show strBodyF ((escape s.data ++ ('"' :: rest)).length + 1)
    (escape s.data ++ ('"' :: rest)) = _
  refine strBodyF_escape s.data _ rest ?_
  have := escape_length s.data
  rw [List.length_append]
  omega

theorem parseField_any (k : String) (l rest : List Char)
    (hl : skipWs l = renderStr k ++ (':' :: ' ' :: rest)) :
    parseField k.data l = some (skipWs rest) := by
  unfold parseField
  rw [hl, parseJString_render]
  show (if k.data = k.data then some (skipWs rest) else none) = some (skipWs rest)
  rw [if_pos rfl]

theorem skipWs_items (w : String) (vs : List String) (X : List Char) :
    skipWs ('\n' :: ' ' :: ' ' :: ' ' :: ' ' :: (renderItems (w :: vs) ++ X)) =
      renderItems (w :: vs) ++ X := by
  cases vs <;> rfl

theorem renderItems_length :
    ∀ (vs : List String) (v : String), (v :: vs).length ≤ (renderItems (v :: vs)).length := by
  intro vs
  induction vs with
  | nil =>
    intro v
    show 1 ≤ ('"' :: (escape v.data ++ ['"'])).length
    simp
  | cons w ws ih =>
    intro v
    show (v :: w :: ws).length ≤
      (renderStr v ++ (',' :: '\n' :: ' ' :: ' ' :: ' ' :: ' ' :: renderItems (w :: ws))).length
    have h2 := ih w
    simp only [List.length_append, List.length_cons] at h2 ⊢
    omega

theorem parseItems_render :
    ∀ (vs : List String) (v : String) (fuel : Nat) (rest : List Char),
      (v :: vs).length ≤ fuel →
      parseItems fuel (renderItems (v :: vs) ++ ('\n' :: ' ' :: ' ' :: ']' :: rest)) =
        some (v :: vs, rest) := by
  intro vs
  induction vs with
  | nil =>
    intro v fuel rest hfuel
    cases fuel with
    | zero => exact absurd hfuel (by simp)
    | succ f =>
      show (match parseJString (renderStr v ++ ('\n' :: ' ' :: ' ' :: ']' :: rest)) with
        | none => none
        | some (s, r) =>
          match skipWs r with
          | ',' :: r2 =>
            match parseItems f (skipWs r2) with
            | some (vs2, r3) => some (⟨s⟩ :: vs2, r3)
            | none => none
          | ']' :: r2 => some ([⟨s⟩], r2)
          | _ => none) = some ([v], rest)
      rw [parseJString_render]
      rfl
  | cons w ws ih =>
    intro v fuel rest hfuel
    cases fuel with
    | zero => exact absurd hfuel (by simp)
    | succ f =>
      have hsplit : renderItems (v :: w :: ws) ++ ('\n' :: ' ' :: ' ' :: ']' :: rest) =
          renderStr v ++ (',' :: '\n' :: ' ' :: ' ' :: ' ' :: ' ' ::
            (renderItems (w :: ws) ++ ('\n' :: ' ' :: ' ' :: ']' :: rest))) := by
        show (renderStr v ++ (',' :: '\n' :: ' ' :: ' ' :: ' ' :: ' ' ::
          renderItems (w :: ws))) ++ ('\n' :: ' ' :: ' ' :: ']' :: rest) = _
        simp [List.append_assoc]
      rw [hsplit]
      show (match parseJString (renderStr v ++ (',' :: '\n' :: ' ' :: ' ' :: ' ' :: ' ' ::
          (renderItems (w :: ws) ++ ('\n' :: ' ' :: ' ' :: ']' :: rest)))) with
        | none => none
        | some (s, r) =>
          match skipWs r with
          | ',' :: r2 =>
            match parseItems f (skipWs r2) with
            | some (vs2, r3) => some (⟨s⟩ :: vs2, r3)
            | none => none
          | ']' :: r2 => some ([⟨s⟩], r2)
          | _ => none) = some (v :: w :: ws, rest)
      rw [parseJString_render]
      show (match parseItems f (skipWs ('\n' :: ' ' :: ' ' :: ' ' :: ' ' ::
          (renderItems (w :: ws) ++ ('\n' :: ' ' :: ' ' :: ']' :: rest)))) with
        | some (vs2, r3) => some (⟨v.data⟩ :: vs2, r3)
        | none => none) = some (v :: w :: ws, rest)
      rw [skipWs_items w ws _]
      rw [ih w f rest (by simp only [List.length_cons] at hfuel ⊢; omega)]

theorem parseArr_render :
    ∀ (vs : List String) (rest : List Char),
      parseArr (renderArr vs ++ rest) = some (vs, rest) := by
  intro vs rest
  cases vs with
  | nil => rfl
  | cons v vs =>
    show parseArr ('[' :: '\n' :: ' ' :: ' ' :: ' ' :: ' ' ::
      ((renderItems (v :: vs) ++ ('\n' :: ' ' :: ' ' :: (']' :: []))) ++ rest)) = _
    rw [show (renderItems (v :: vs) ++ ('\n' :: ' ' :: ' ' :: (']' :: []))) ++ rest =
        renderItems (v :: vs) ++ ('\n' :: ' ' :: ' ' :: ']' :: rest) from by
      simp [List.append_assoc]]
    obtain ⟨tl, htl⟩ : ∃ tl, renderItems (v :: vs) = '"' :: tl := by
      cases vs with
      | nil => exact ⟨escape v.data ++ ['"'], rfl⟩
      | cons w ws =>
        exact ⟨(escape v.data ++ ['"']) ++
          (',' :: '\n' :: ' ' :: ' ' :: ' ' :: ' ' :: renderItems (w :: ws)), rfl⟩
    show (match skipWs ('\n' :: ' ' :: ' ' :: ' ' :: ' ' ::
        (renderItems (v :: vs) ++ ('\n' :: ' ' :: ' ' :: ']' :: rest))) with
      | ']' :: r2 => some ([], r2)
      | r1 => parseItems (r1.length + 1) r1) = some (v :: vs, rest)
    rw [skipWs_items v vs _, htl]
    show parseItems (('"' :: (tl ++ ('\n' :: ' ' :: ' ' :: ']' :: rest))).length + 1)
      ('"' :: (tl ++ ('\n' :: ' ' :: ' ' :: ']' :: rest))) = some (v :: vs, rest)
    rw [show ('"' :: (tl ++ ('\n' :: ' ' :: ' ' :: ']' :: rest)) : List Char) =
      ('"' :: tl) ++ ('\n' :: ' ' :: ' ' :: ']' :: rest) from rfl, ← htl]
    refine parseItems_render vs v _ rest ?_
    have h1 := renderItems_length vs v
    rw [List.length_append]
    omega

theorem skipWs_renderArr (vs : List String) (X : List Char) :
    skipWs (renderArr vs ++ X) = renderArr vs ++ X := by
  cases vs <;> rfl

/-- The JSON export round trip: parsing the exported document recovers the
`generated_at` string, the identifier count and the identifier list. -/
theorem parseDoc_json_data (g : String) (vs : List String) :
    parseDoc (json_data g vs) = some (g, vs.length, vs) := by
  unfold parseDoc
  rw [show expectC '{' (skipWs (json_data g vs).data) = some ('\n' :: ' ' :: ' ' :: (renderStr "generated_at" ++ (':' :: ' ' :: (renderStr g ++ (',' :: '\n' :: ' ' :: ' ' :: (renderStr "total_vpas" ++ (':' :: ' ' :: (natRender vs.length ++ (',' :: '\n' :: ' ' :: ' ' :: (renderStr "vpas" ++ (':' :: ' ' :: (renderArr vs ++ ('\n' :: '}' :: []))))))))))))) from rfl, obind_some]
  rw [parseField_any "generated_at" ('\n' :: ' ' :: ' ' :: (renderStr "generated_at" ++ (':' :: ' ' :: (renderStr g ++ (',' :: '\n' :: ' ' :: ' ' :: (renderStr "total_vpas" ++ (':' :: ' ' :: (natRender vs.length ++ (',' :: '\n' :: ' ' :: ' ' :: (renderStr "vpas" ++ (':' :: ' ' :: (renderArr vs ++ ('\n' :: '}' :: []))))))))))))) (renderStr g ++ (',' :: '\n' :: ' ' :: ' ' :: (renderStr "total_vpas" ++ (':' :: ' ' :: (natRender vs.length ++ (',' :: '\n' :: ' ' :: ' ' :: (renderStr "vpas" ++ (':' :: ' ' :: (renderArr vs ++ ('\n' :: '}' :: [])))))))))) rfl, obind_some]
  rw [show (skipWs (renderStr g ++ (',' :: '\n' :: ' ' :: ' ' :: (renderStr "total_vpas" ++ (':' :: ' ' :: (natRender vs.length ++ (',' :: '\n' :: ' ' :: ' ' :: (renderStr "vpas" ++ (':' :: ' ' :: (renderArr vs ++ ('\n' :: '}' :: [])))))))))) : List Char) = (renderStr g ++ (',' :: '\n' :: ' ' :: ' ' :: (renderStr "total_vpas" ++ (':' :: ' ' :: (natRender vs.length ++ (',' :: '\n' :: ' ' :: ' ' :: (renderStr "vpas" ++ (':' :: ' ' :: (renderArr vs ++ ('\n' :: '}' :: [])))))))))) from rfl]
  rw [parseJString_render g (',' :: '\n' :: ' ' :: ' ' :: (renderStr "total_vpas" ++ (':' :: ' ' :: (natRender vs.length ++ (',' :: '\n' :: ' ' :: ' ' :: (renderStr "vpas" ++ (':' :: ' ' :: (renderArr vs ++ ('\n' :: '}' :: []))))))))), obind_some]
  rw [show expectC ',' (skipWs ((g.data, (',' :: '\n' :: ' ' :: ' ' :: (renderStr "total_vpas" ++ (':' :: ' ' :: (natRender vs.length ++ (',' :: '\n' :: ' ' :: ' ' :: (renderStr "vpas" ++ (':' :: ' ' :: (renderArr vs ++ ('\n' :: '}' :: [])))))))))) : List Char × List Char).2) =
    some ('\n' :: ' ' :: ' ' :: (renderStr "total_vpas" ++ (':' :: ' ' :: (natRender vs.length ++ (',' :: '\n' :: ' ' :: ' ' :: (renderStr "vpas" ++ (':' :: ' ' :: (renderArr vs ++ ('\n' :: '}' :: []))))))))) from rfl, obind_some]
  rw [parseField_any "total_vpas" ('\n' :: ' ' :: ' ' :: (renderStr "total_vpas" ++ (':' :: ' ' :: (natRender vs.length ++ (',' :: '\n' :: ' ' :: ' ' :: (renderStr "vpas" ++ (':' :: ' ' :: (renderArr vs ++ ('\n' :: '}' :: []))))))))) (natRender vs.length ++ (',' :: '\n' :: ' ' :: ' ' :: (renderStr "vpas" ++ (':' :: ' ' :: (renderArr vs ++ ('\n' :: '}' :: [])))))) rfl, obind_some]
  rw [skipWs_natRender vs.length (',' :: '\n' :: ' ' :: ' ' :: (renderStr "vpas" ++ (':' :: ' ' :: (renderArr vs ++ ('\n' :: '}' :: [])))))]
  rw [parseNatL_round vs.length ',' ('\n' :: ' ' :: ' ' :: (renderStr "vpas" ++ (':' :: ' ' :: (renderArr vs ++ ('\n' :: '}' :: []))))) (by decide), obind_some]
  rw [show expectC ',' (skipWs ((vs.length, (',' :: '\n' :: ' ' :: ' ' :: (renderStr "vpas" ++ (':' :: ' ' :: (renderArr vs ++ ('\n' :: '}' :: [])))))) : Nat × List Char).2) =
    some ('\n' :: ' ' :: ' ' :: (renderStr "vpas" ++ (':' :: ' ' :: (renderArr vs ++ ('\n' :: '}' :: []))))) from rfl, obind_some]
  rw [parseField_any "vpas" ('\n' :: ' ' :: ' ' :: (renderStr "vpas" ++ (':' :: ' ' :: (renderArr vs ++ ('\n' :: '}' :: []))))) (renderArr vs ++ ('\n' :: '}' :: [])) rfl, obind_some]
  rw [skipWs_renderArr vs ('\n' :: '}' :: [])]
  rw [parseArr_render vs ('\n' :: '}' :: []), obind_some]
  rw [show expectC '}' (skipWs ((vs, ('\n' :: '}' :: [])) : List String × List Char).2) =
    some ([] : List Char) from rfl, obind_some]
  rw [if_pos (show skipWs ([] : List Char) = [] from rfl)]

/-! ## Claim C9 -/

/-- C9: serializing an ordered identifier list to the JSON document
`(generated_at, total_vpas, vpas)` (exactly as `json.dumps(..., indent=2)`
prints it, including `ensure_ascii` escaping) and parsing that document
back yields under `vpas` exactly the same ordered sequence of strings and
under `total_vpas` its length; a concrete export shows the exact document
text produced. -/
theorem c9_json_roundtrip :
    (∀ (g : String) (vs : List String),
      parseDoc (json_data g vs) = some (g, vs.length, vs)) ∧
    json_data "2024-01-01" ["9876543210@paytm", "9876543210@ybl"] =
      "\x7b\n  \"generated_at\": \"2024-01-01\",\n  \"total_vpas\": 2,\n  \"vpas\": [\n    \"9876543210@paytm\",\n    \"9876543210@ybl\"\n  ]\n\x7d" := by
  constructor
  · exact parseDoc_json_data
  · show String.mk (renderDoc "2024-01-01" ["9876543210@paytm", "9876543210@ybl"]) = _
    have hn : natRender (["9876543210@paytm", "9876543210@ybl"] : List String).length =
        ['2'] := by
      rw [show (["9876543210@paytm", "9876543210@ybl"] : List String).length = 2 from rfl,
        natRender_small 2 (by decide)]
      rfl
    unfold renderDoc
    rw [hn]
    decide
